import Mathlib

/-!
Shallow embedding of the RP2040 HAL UART driver (src/rp2040-hal/src/uart.rs):
configuration types, the line-format encoder `set_format`, the baud-rate
divisor calculator `configure_baudrate`, the ordered register-write trace of
`UARTPeripheral::enable`, and the FIFO transfer engine (`write`, `read`,
`write_full_blocking`, `read_full_blocking`).

Machine integers (`u32` values of `Baud`/`Hertz`) are modelled as `Nat`, with
an explicit reduction modulo `2 ^ 32` exactly where the source's `u32`
multiplications can wrap. Hardware registers are modelled at field
granularity, as the peripheral access crate exposes them; a register `write`
builds its writer value starting from the register's reset value and stores
the result, replacing the previous content. The FIFO status flags read from
UARTFR are modelled as an oracle sequence indexed by the number of flag reads
performed so far, and the receive data register as an oracle sequence indexed
by the number of data reads performed so far.
-/

namespace Uart

/-- Data bits (uart.rs enum `DataBits`). -/
inductive DataBits where
  | Five
  | Six
  | Seven
  | Eight
deriving DecidableEq

/-- Stop bits (uart.rs enum `StopBits`). -/
inductive StopBits where
  | One
  | Two
deriving DecidableEq

/-- Parity (uart.rs enum `Parity`); the "none" state is `Option.none`, as in
the source. -/
inductive Parity where
  | Odd
  | Even
deriving DecidableEq

/-- Configuration (uart.rs struct `UARTConfig`); `baudrate` is the `u32`
value wrapped by `Baud`. -/
structure UARTConfig where
  baudrate : Nat
  data_bits : DataBits
  stop_bits : StopBits
  parity : Option Parity

/-- Line-control register UARTLCR_H, modelled at field granularity
(PL011 layout: BRK, PEN, EPS, STP2, FEN, WLEN, SPS). The field defaults are
the register's reset value (all fields zero). -/
structure UART_LCR_H where
  brk : Bool := false
  pen : Bool := false
  eps : Bool := false
  stp2 : Bool := false
  fen : Bool := false
  wlen : Nat := 0
  sps : Bool := false
deriving DecidableEq

/-- Reset value of UARTLCR_H: all fields zero. -/
def UART_LCR_H.reset : UART_LCR_H := {}

/-- Control register UARTCR, restricted to the fields the driver touches.
The field defaults are the register's reset value (TXE and RXE are set at
reset, UARTEN is clear). -/
structure UART_CR where
  uarten : Bool := false
  txe : Bool := true
  rxe : Bool := true
deriving DecidableEq

/-- DMA control register UARTDMACR, restricted to the fields the driver
touches; reset value is all clear. -/
structure UART_DMACR where
  rxdmae : Bool := false
  txdmae : Bool := false
deriving DecidableEq

/-- Format configuration (uart.rs `set_format`): updates the PEN/EPS, WLEN
and STP2 fields of the line-control writer exactly as the source does,
leaving every other field of `w` alone. -/
def set_format (w : UART_LCR_H) (data_bits : DataBits) (stop_bits : StopBits)
    (parity : Option Parity) : UART_LCR_H :=
  let w := match parity with
    | some p =>
      { w with pen := true,
               eps := match p with
                 | Parity.Odd => false
                 | Parity.Even => true }
    | none => { w with pen := false }
  let w := { w with wlen := match data_bits with
    | DataBits.Five => 0b00
    | DataBits.Six => 0b01
    | DataBits.Seven => 0b10
    | DataBits.Eight => 0b11 }
  match stop_bits with
  | StopBits.One => { w with stp2 := false }
  | StopBits.Two => { w with stp2 := true }

/-- Baud-rate divisor calculation from uart.rs `configure_baudrate`,
returning `(baud_ibrd, baud_fbrd, effective baud rate)`. The two
multiplications `8 * frequency` and `4 * frequency` are `u32` products in
the source and are therefore reduced modulo `2 ^ 32`; every other
intermediate value is small enough not to wrap. The source's match on the
pair `(baudrate_div >> 7, ((baudrate_div & 0x7F) + 1) / 2)` is rendered as
the equivalent conditional on the first component. -/
def configure_baudrate (frequency wanted_baudrate : Nat) : Nat × Nat × Nat :=
  let baudrate_div := (8 * frequency) % 2 ^ 32 / wanted_baudrate
  let p :=
    if baudrate_div >>> 7 = 0 then (1, 0)
    else if 65535 ≤ baudrate_div >>> 7 then (65535, 0)
    else (baudrate_div >>> 7, ((baudrate_div &&& 0x7F) + 1) / 2)
  (p.1, p.2, (4 * frequency) % 2 ^ 32 / (64 * p.1 + p.2))

/-- Claim-side counterpart of the divisor computation, written exactly as
the specification words it, over unbounded integers (no `u32` reduction).
It is compared against `configure_baudrate`, the embedding of the source. -/
def claimed_divisor_calculator (f b : Nat) : Nat × Nat × Nat :=
  let raw := 8 * f / b
  let ibrd_candidate := raw >>> 7
  let fbrd_candidate := ((raw &&& 0x7F) + 1) / 2
  let p :=
    if ibrd_candidate = 0 then (1, 0)
    else if 65535 ≤ ibrd_candidate then (65535, 0)
    else (ibrd_candidate, fbrd_candidate)
  (p.1, p.2, 4 * f / (64 * p.1 + p.2))

/-- Divisor-latching write from `configure_baudrate`:
`device.uartlcr_h.write(|w| w)`. A register `write` initialises its writer
from the register's reset value and stores what the closure returns; the
identity closure therefore stores `UART_LCR_H.reset` over whatever the
register held before. -/
def uartlcr_h_latch_write (_current : UART_LCR_H) : UART_LCR_H :=
  UART_LCR_H.reset

/-- Register write performed on the UART device, together with the full
value stored. -/
inductive RegEvent where
  | ibrd (v : Nat)
  | fbrd (v : Nat)
  | lcrH (v : UART_LCR_H)
  | cr (v : UART_CR)
  | dmacr (v : UART_DMACR)
deriving DecidableEq

/-- Which register a write targets. -/
inductive RegKind where
  | ibrd
  | fbrd
  | lcrH
  | cr
  | dmacr
deriving DecidableEq

/-- Target register of a write event. -/
def RegEvent.kind : RegEvent → RegKind
  | RegEvent.ibrd _ => RegKind.ibrd
  | RegEvent.fbrd _ => RegKind.fbrd
  | RegEvent.lcrH _ => RegKind.lcrH
  | RegEvent.cr _ => RegKind.cr
  | RegEvent.dmacr _ => RegKind.dmacr

/-- Register writes performed by `configure_baudrate`, in source order:
UARTIBRD (the value cast to `u16` and stored in the 16-bit BAUD_DIVINT
field), UARTFBRD (the value cast to `u8` and masked by the 6-bit
BAUD_DIVFRAC field), then the divisor-latching UARTLCR_H write. -/
def configure_baudrate_writes (frequency wanted_baudrate : Nat) : List RegEvent :=
  let r := configure_baudrate frequency wanted_baudrate
  [RegEvent.ibrd (r.1 % 2 ^ 16),
   RegEvent.fbrd (r.2.1 % 2 ^ 6),
   RegEvent.lcrH (uartlcr_h_latch_write UART_LCR_H.reset)]

/-- Side effects of `UARTPeripheral::enable`, as the ordered list of register
writes it performs, together with the effective baud rate stored on the
returned peripheral. Source order: the `configure_baudrate` writes, then the
UARTCR write setting UARTEN/TXE/RXE, then the UARTLCR_H write setting FEN and
the `set_format` fields, then the UARTDMACR write setting TXDMAE/RXDMAE.
Each register `write` starts from the register's reset value. -/
def enable (config : UARTConfig) (frequency : Nat) : List RegEvent × Nat :=
  let eff := (configure_baudrate frequency config.baudrate).2.2
  (configure_baudrate_writes frequency config.baudrate ++
    [RegEvent.cr { uarten := true, txe := true, rxe := true },
     RegEvent.lcrH (set_format { UART_LCR_H.reset with fen := true }
       config.data_bits config.stop_bits config.parity),
     RegEvent.dmacr { txdmae := true, rxdmae := true }], eff)

namespace common_configs

/-- Preset 9600 baud, 8 data bits, no parity, 1 stop bit. -/
def _9600_8_N_1 : UARTConfig :=
  { baudrate := 9600, data_bits := DataBits.Eight,
    stop_bits := StopBits.One, parity := none }

/-- Preset 19200 baud, 8 data bits, no parity, 1 stop bit. -/
def _19200_8_N_1 : UARTConfig :=
  { baudrate := 19200, data_bits := DataBits.Eight,
    stop_bits := StopBits.One, parity := none }

/-- Preset 38400 baud, 8 data bits, no parity, 1 stop bit. -/
def _38400_8_N_1 : UARTConfig :=
  { baudrate := 38400, data_bits := DataBits.Eight,
    stop_bits := StopBits.One, parity := none }

/-- Preset 57600 baud, 8 data bits, no parity, 1 stop bit. -/
def _57600_8_N_1 : UARTConfig :=
  { baudrate := 57600, data_bits := DataBits.Eight,
    stop_bits := StopBits.One, parity := none }

/-- Preset 115200 baud, 8 data bits, no parity, 1 stop bit. -/
def _115200_8_N_1 : UARTConfig :=
  { baudrate := 115200, data_bits := DataBits.Eight,
    stop_bits := StopBits.One, parity := none }

end common_configs

/-- Error type of the non-blocking transfer operations: the source returns
`nb::Result<usize, Infallible>`, whose only error value is
`nb::Error::WouldBlock`. -/
inductive NbError where
  | wouldBlock
deriving DecidableEq

/-- Status check `UARTPeripheral::uart_is_writable`: the TXFF (transmit FIFO
full) flag of UARTFR must be clear. `txff n` is the flag value the n-th
UARTFR read on the transmit path returns; `c` counts the reads performed so
far. -/
def uart_is_writable (txff : Nat → Bool) (c : Nat) : Bool := !txff c

/-- Status check `UARTPeripheral::uart_is_readable`: the RXFE (receive FIFO
empty) flag of UARTFR must be clear. `rxfe n` is the flag value the n-th
UARTFR read on the receive path returns; `c` counts the reads performed so
far. -/
def uart_is_readable (rxfe : Nat → Bool) (c : Nat) : Bool := !rxfe c

/-- Loop of `UARTPeripheral::write`. `c` is the index of the next UARTFR
read and `bytes_written` the counter from the source. Returns the source's
return value, the list of bytes pushed to UARTDR in order, and the index
after the last UARTFR read. -/
def writeGo (txff : Nat → Bool) (c bytes_written : Nat) :
    List Nat → Except NbError Nat × List Nat × Nat
  | [] => (Except.ok bytes_written, [], c)
  | byte :: rest =>
    if !uart_is_writable txff c then
      if bytes_written = 0 then (Except.error NbError.wouldBlock, [], c + 1)
      else (Except.ok bytes_written, [], c + 1)
    else
      let r := writeGo txff (c + 1) (bytes_written + 1) rest
      (r.1, byte :: r.2.1, r.2.2)

/-- Non-blocking `UARTPeripheral::write` on `data`, entered with
`bytes_written = 0`, when the peripheral has already performed `c` UARTFR
reads on the transmit path. -/
def write (txff : Nat → Bool) (c : Nat) (data : List Nat) :
    Except NbError Nat × List Nat × Nat :=
  writeGo txff c 0 data

/-- Loop of `UARTPeripheral::read`. `remaining` is `buffer.len() -
bytes_read`, `c` is the index of the next UARTFR read, `d` the index of the
next UARTDR read (`rx d` is the byte that read yields), and `bytes_read` the
counter from the source. Returns the source's return value, the bytes stored
into the buffer in order, and both indices after the call. -/
def readGo (rxfe : Nat → Bool) (rx : Nat → Nat) :
    Nat → Nat → Nat → Nat → Except NbError Nat × List Nat × Nat × Nat
  | remaining, c, d, bytes_read =>
    if !uart_is_readable rxfe c then
      if bytes_read = 0 then (Except.error NbError.wouldBlock, [], c + 1, d)
      else (Except.ok bytes_read, [], c + 1, d)
    else
      match remaining with
      | 0 => (Except.ok bytes_read, [], c + 1, d)
      | r + 1 =>
        let res := readGo rxfe rx r (c + 1) (d + 1) (bytes_read + 1)
        (res.1, rx d :: res.2.1, res.2.2)

/-- Non-blocking `UARTPeripheral::read` into a buffer of length `len`,
entered with `bytes_read = 0`, when the peripheral has already performed `c`
UARTFR reads and `d` UARTDR reads on the receive path. -/
def read (rxfe : Nat → Bool) (rx : Nat → Nat) (len c d : Nat) :
    Except NbError Nat × List Nat × Nat × Nat :=
  readGo rxfe rx len c d 0

/-- Blocking `UARTPeripheral::write_full_blocking`: repeatedly calls `write`
on the remaining slice, retrying on WouldBlock and advancing the offset on
success, until everything is sent. The source loop is unbounded; `fuel`
bounds the number of loop iterations in the embedding, and `none` means the
bound was reached before the transfer completed. On completion, returns all
bytes pushed to UARTDR in order and the final UARTFR read index. -/
def write_full_blocking (txff : Nat → Bool) :
    Nat → Nat → List Nat → Option (List Nat × Nat)
  | _, c, [] => some ([], c)
  | 0, _, _ :: _ => none
  | fuel + 1, c, byte :: rest =>
    match write txff c (byte :: rest) with
    | (Except.error _, _, c') => write_full_blocking txff fuel c' (byte :: rest)
    | (Except.ok n, pushed, c') =>
      match write_full_blocking txff fuel c' ((byte :: rest).drop n) with
      | none => none
      | some (sent, cEnd) => some (pushed ++ sent, cEnd)

/-- Blocking `UARTPeripheral::read_full_blocking` into a buffer of length
`len`: repeatedly calls `read` on the remaining slice, retrying on
WouldBlock and advancing the offset on success. `fuel` bounds the number of
loop iterations; `none` means the bound was reached. On completion, returns
the bytes stored into the buffer in order and the final UARTFR and UARTDR
read indices. -/
def read_full_blocking (rxfe : Nat → Bool) (rx : Nat → Nat) :
    Nat → Nat → Nat → Nat → Option (List Nat × Nat × Nat)
  | _, c, d, 0 => some ([], c, d)
  | 0, _, _, _ + 1 => none
  | fuel + 1, c, d, len + 1 =>
    match read rxfe rx (len + 1) c d with
    | (Except.error _, _, c', d') => read_full_blocking rxfe rx fuel c' d' (len + 1)
    | (Except.ok n, got, c', d') =>
      match read_full_blocking rxfe rx fuel c' d' (len + 1 - n) with
      | none => none
      | some (rest, cEnd, dEnd) => some (got ++ rest, cEnd, dEnd)

/-! Claim C1: divisor calculator against the spec's arithmetic description. -/

/-- Claim C1, counterexample: at frequency 536870912 Hz and wanted baud 1 the
claim's arithmetic predicts the slow clamp (65535, 0) with effective baud
512, but the source's u32 product `8 * frequency` wraps to 0, so the code
takes the fast clamp (1, 0) and returns effective baud 33554432. -/
theorem divisor_calculator_counterexample :
    configure_baudrate 536870912 1 ≠ claimed_divisor_calculator 536870912 1
    ∧ configure_baudrate 536870912 1 = (1, 0, 33554432)
    ∧ claimed_divisor_calculator 536870912 1 = (65535, 0, 512) := by
  decide

/-- Claim C1 (amended): for every positive wanted baud rate `b` and positive
clock frequency `f` such that the u32 product `8 * f` does not wrap, the
divisor calculator computes raw, ibrd, fbrd and the effective baud rate
exactly as the claim words it. -/
theorem divisor_calculator_amended (f b : Nat) (hf : 0 < f) (hb : 0 < b)
    (hov : 8 * f < 2 ^ 32) :
    configure_baudrate f b = claimed_divisor_calculator f b := by
  have h8 : (8 * f) % 2 ^ 32 = 8 * f := Nat.mod_eq_of_lt hov
  have h4 : (4 * f) % 2 ^ 32 = 4 * f :=
    Nat.mod_eq_of_lt (lt_of_le_of_lt (by omega) hov)
  unfold configure_baudrate claimed_divisor_calculator
  rw [h8, h4]

/-- Claim C1, witness: the amended theorem applied at the spec's own example
input, 125 MHz and 115200 baud. -/
theorem divisor_calculator_amended_witness :
    configure_baudrate 125000000 115200 =
      claimed_divisor_calculator 125000000 115200 :=
  divisor_calculator_amended 125000000 115200 (by decide) (by decide) (by decide)

/-! Claim C2: range of the divisor pair. -/

/-- Claim C2 fails on the code: at frequency 125000000 Hz and wanted baud
1564945 the raw divisor is 639, whose low seven bits are 127, so the
fractional part comes out as (127 + 1) / 2 = 64, outside 0..=63; the 6-bit
BAUD_DIVFRAC field of UARTFBRD masks the stored value down to 0, so the
divisor the hardware latches is not the one the effective-baud computation
uses. -/
theorem fbrd_exceeds_six_bits :
    configure_baudrate 125000000 1564945 = (4, 64, 1562500)
    ∧ 63 < (configure_baudrate 125000000 1564945).2.1
    ∧ (enable { baudrate := 1564945, data_bits := DataBits.Eight,
                stop_bits := StopBits.One, parity := none } 125000000).1.get? 1 =
        some (RegEvent.fbrd 0) := by
  decide

/-! Claim C3: the spec's worked example at 125 MHz, 115200 baud. -/

/-- Claim C3, counterexample: the claim says fbrd = 21, but the code computes
fbrd = ((8680 &&& 0x7F) + 1) / 2 = (104 + 1) / 2 = 52. -/
theorem divisor_example_counterexample :
    (configure_baudrate 125000000 115200).2.1 ≠ 21 := by
  decide

/-- Claim C3 (amended): at frequency 125000000 Hz and wanted baud 115200 the
calculator produces raw = 8680, ibrd = 67, fbrd = 52, and returns the
effective baud rate 500000000 / 4340 = 115207. -/
theorem divisor_example_amended :
    8 * 125000000 / 115200 = 8680
    ∧ configure_baudrate 125000000 115200 = (67, 52, 115207)
    ∧ 500000000 / (64 * 67 + 52) = 115207 := by
  decide

/-! Claim C5: the divisor-latching UARTLCR_H write. -/

/-- Claim C5 fails on the code: a register `write` starts its writer from the
reset value, so the latching write `uartlcr_h.write(|w| w)` stores the reset
value (all fields zero) and erases the register's previous content - here a
content with FIFOs enabled and 8-bit words - although the source's own
comment says it must not change LCR contents. -/
theorem latch_write_clears_lcr :
    uartlcr_h_latch_write { fen := true, wlen := 0b11 } ≠
      ({ fen := true, wlen := 0b11 } : UART_LCR_H)
    ∧ uartlcr_h_latch_write { fen := true, wlen := 0b11 } = UART_LCR_H.reset := by
  decide

/-! Helper lemmas: field-level characterisation of `set_format`. -/

/-- Field characterisation of `set_format`: it writes PEN, EPS (only when a
parity is present), WLEN and STP2, and leaves every other field of `w`
unchanged. -/
lemma set_format_eq (w : UART_LCR_H) (db : DataBits) (sb : StopBits)
    (p : Option Parity) :
    set_format w db sb p =
      { w with
        pen := p.isSome,
        eps := match p with
          | some Parity.Even => true
          | some Parity.Odd => false
          | none => w.eps,
        wlen := match db with
          | DataBits.Five => 0
          | DataBits.Six => 1
          | DataBits.Seven => 2
          | DataBits.Eight => 3,
        stp2 := match sb with
          | StopBits.One => false
          | StopBits.Two => true } := by
  rcases p with _ | p
  · cases sb <;> rfl
  · cases p <;> cases sb <;> rfl

/-- The FEN bit is untouched by `set_format`. -/
lemma set_format_fen (w : UART_LCR_H) (db : DataBits) (sb : StopBits)
    (p : Option Parity) : (set_format w db sb p).fen = w.fen := by
  rw [set_format_eq]

/-! Claim C4: order of the side effects of `enable`. -/

/-- Claim C4, counterexample: at the 115200 preset and 125 MHz, `enable`
writes the registers in the order IBRD, FBRD, LCR_H (latch), CR, LCR_H
(format), DMACR - the control-register write carrying the enable bits comes
before the line-format write, not after it as the claim orders them. -/
theorem enable_order_counterexample :
    (enable common_configs._115200_8_N_1 125000000).1.map RegEvent.kind =
      [RegKind.ibrd, RegKind.fbrd, RegKind.lcrH,
       RegKind.cr, RegKind.lcrH, RegKind.dmacr]
    ∧ (enable common_configs._115200_8_N_1 125000000).1.map RegEvent.kind ≠
      [RegKind.ibrd, RegKind.fbrd, RegKind.lcrH,
       RegKind.lcrH, RegKind.cr, RegKind.dmacr] := by
  decide

/-- Claim C4 (amended): for every configuration and clock frequency, `enable`
performs its register writes in this order: first the baud divisor (IBRD,
FBRD, then the latching LCR_H write), second the control-register write
setting the transmit-enable, receive-enable and peripheral-enable bits,
third the line format together with the FIFO-enable bit, and fourth the
DMA-request-enable bits for both directions. -/
theorem enable_effect_order (config : UARTConfig) (frequency : Nat) :
    (enable config frequency).1.map RegEvent.kind =
      [RegKind.ibrd, RegKind.fbrd, RegKind.lcrH,
       RegKind.cr, RegKind.lcrH, RegKind.dmacr]
    ∧ (enable config frequency).1.get? 3 =
        some (RegEvent.cr { uarten := true, txe := true, rxe := true })
    ∧ (∃ w, (enable config frequency).1.get? 4 = some (RegEvent.lcrH w)
        ∧ w.fen = true
        ∧ w = set_format { UART_LCR_H.reset with fen := true }
            config.data_bits config.stop_bits config.parity)
    ∧ (enable config frequency).1.get? 5 =
        some (RegEvent.dmacr { txdmae := true, rxdmae := true }) := by
  refine ⟨rfl, rfl, ⟨_, rfl, ?_, rfl⟩, rfl⟩
  rw [set_format_fen]

/-! Claim C9: correctness and injectivity of the line-format encoder. -/

/-- Claim C9: the word-length encoder maps 5, 6, 7, 8 data bits to 0b00,
0b01, 0b10, 0b11 and is injective; a present parity sets PEN with EPS set
exactly for even parity, an absent parity clears PEN; one stop bit clears
STP2 and two stop bits set it. -/
theorem set_format_encoding :
    (∀ w sb p, (set_format w DataBits.Five sb p).wlen = 0b00
      ∧ (set_format w DataBits.Six sb p).wlen = 0b01
      ∧ (set_format w DataBits.Seven sb p).wlen = 0b10
      ∧ (set_format w DataBits.Eight sb p).wlen = 0b11)
    ∧ (∀ w sb p d1 d2,
        ((set_format w d1 sb p).wlen = (set_format w d2 sb p).wlen ↔ d1 = d2))
    ∧ (∀ w db sb, (set_format w db sb (some Parity.Even)).pen = true
      ∧ (set_format w db sb (some Parity.Even)).eps = true
      ∧ (set_format w db sb (some Parity.Odd)).pen = true
      ∧ (set_format w db sb (some Parity.Odd)).eps = false
      ∧ (set_format w db sb none).pen = false)
    ∧ (∀ w db p, (set_format w db StopBits.One p).stp2 = false
      ∧ (set_format w db StopBits.Two p).stp2 = true) := by
  refine ⟨?_, ?_, ?_, ?_⟩
  · intro w sb p
    refine ⟨?_, ?_, ?_, ?_⟩ <;> rw [set_format_eq]
  · intro w sb p d1 d2
    constructor
    · intro h
      rw [set_format_eq, set_format_eq] at h
      cases d1 <;> cases d2 <;> simp_all
    · rintro rfl; rfl
  · intro w db sb
    refine ⟨?_, ?_, ?_, ?_, ?_⟩ <;> rw [set_format_eq] <;> rfl
  · intro w db p
    refine ⟨?_, ?_⟩ <;> rw [set_format_eq]

/-! Helper lemmas: closed forms of the non-blocking transfer loops. In both,
`k` is pinned down by hypotheses as the number of consecutive leading status
checks that see a usable FIFO, capped at the number of bytes the call could
transfer. -/

/-- Closed form of the `write` loop: with `k` leading writable checks from
cursor `c` (capped at the input length), the loop errors exactly when it
could accept nothing at all, otherwise accepts the first `k` bytes, pushing
them to UARTDR in order, and performs one extra flag read when it stopped on
a full FIFO. -/
lemma writeGo_eq (txff : Nat → Bool) :
    ∀ (data : List Nat) (c n k : Nat), k ≤ data.length →
      (∀ i, i < k → txff (c + i) = false) →
      (k < data.length → txff (c + k) = true) →
      writeGo txff c n data =
        (if data.length ≠ 0 ∧ k = 0 ∧ n = 0 then Except.error NbError.wouldBlock
         else Except.ok (n + k),
         data.take k,
         c + k + if k < data.length then 1 else 0) := by
  intro data
  induction data with
  | nil =>
    intro c n k hk _ _
    have hk0 : k = 0 := Nat.le_zero.mp hk
    subst hk0
    simp [writeGo]
  | cons byte rest ih =>
    intro c n k hk hclear hstop
    match k with
    | 0 =>
      have htx : txff c = true := by
        have := hstop (by simp)
        simpa using this
      by_cases hn : n = 0 <;>
        simp [writeGo, uart_is_writable, htx, hn]
    | k' + 1 =>
      have hlen : k' ≤ rest.length := by simpa using hk
      have htx : txff c = false := by
        have := hclear 0 (by omega)
        simpa using this
      have hclear' : ∀ i, i < k' → txff (c + 1 + i) = false := by
        intro i hi
        have h := hclear (i + 1) (by omega)
        rwa [show c + (i + 1) = c + 1 + i by omega] at h
      have hstop' : k' < rest.length → txff (c + 1 + k') = true := by
        intro h
        have hh := hstop (by simpa using Nat.succ_lt_succ h)
        rwa [show c + (k' + 1) = c + 1 + k' by omega] at hh
      have hr := ih (c + 1) (n + 1) k' hlen hclear' hstop'
      simp only [writeGo, uart_is_writable, htx, Bool.not_false, Bool.not_true, hr]
      rw [if_neg (by simp : ¬(false = true))]
      rw [if_neg (show ¬(rest.length ≠ 0 ∧ k' = 0 ∧ n + 1 = 0) by
        rintro ⟨-, -, h⟩; omega)]
      rw [if_neg (show ¬((byte :: rest).length ≠ 0 ∧ k' + 1 = 0 ∧ n = 0) by
        rintro ⟨-, h, -⟩; omega)]
      simp only [Prod.mk.injEq, Except.ok.injEq]
      refine ⟨by omega, ?_, ?_⟩
      · rw [List.take_succ_cons]
      · simp only [List.length_cons]
        by_cases hlt : k' < rest.length
        · rw [if_pos hlt, if_pos (by omega)]
          omega
        · rw [if_neg hlt, if_neg (by omega)]
          omega

/-- Closed form of the `read` loop: with `k` leading readable checks from
flag cursor `c` (capped at `len`), the loop errors exactly when it read
nothing and the FIFO reported empty, otherwise returns the `k` bytes taken
from UARTDR in order; it always performs exactly `k + 1` flag reads. -/
lemma readGo_eq (rxfe : Nat → Bool) (rx : Nat → Nat) :
    ∀ (len c d n k : Nat), k ≤ len →
      (∀ i, i < k → rxfe (c + i) = false) →
      (k < len → rxfe (c + k) = true) →
      readGo rxfe rx len c d n =
        (if n + k = 0 ∧ (k < len ∨ rxfe (c + k) = true)
           then Except.error NbError.wouldBlock
           else Except.ok (n + k),
         (List.range' d k).map rx,
         c + k + 1, d + k) := by
  intro len
  induction len with
  | zero =>
    intro c d n k hk _ _
    have hk0 : k = 0 := Nat.le_zero.mp hk
    subst hk0
    cases hc : rxfe c <;>
      by_cases hn : n = 0 <;>
        simp [readGo, uart_is_readable, hc, hn]
  | succ l ih =>
    intro c d n k hk hclear hstop
    match k with
    | 0 =>
      have hrx : rxfe c = true := by
        have := hstop (by omega)
        simpa using this
      by_cases hn : n = 0 <;>
        simp [readGo, uart_is_readable, hrx, hn]
    | k' + 1 =>
      have hlen : k' ≤ l := by omega
      have hrx : rxfe c = false := by
        have := hclear 0 (by omega)
        simpa using this
      have hclear' : ∀ i, i < k' → rxfe (c + 1 + i) = false := by
        intro i hi
        have h := hclear (i + 1) (by omega)
        rwa [show c + (i + 1) = c + 1 + i by omega] at h
      have hstop' : k' < l → rxfe (c + 1 + k') = true := by
        intro h
        have hh := hstop (by omega)
        rwa [show c + (k' + 1) = c + 1 + k' by omega] at hh
      have hr := ih (c + 1) (d + 1) (n + 1) k' hlen hclear' hstop'
      simp only [readGo, uart_is_readable, hrx, Bool.not_false, Bool.not_true, hr]
      rw [if_neg (by simp : ¬(false = true))]
      rw [if_neg (show ¬(n + 1 + k' = 0 ∧ (k' < l ∨ rxfe (c + 1 + k') = true)) by
        rintro ⟨h, -⟩; omega)]
      rw [if_neg
        (show ¬(n + (k' + 1) = 0 ∧ (k' + 1 < l + 1 ∨ rxfe (c + (k' + 1)) = true)) by
        rintro ⟨h, -⟩; omega)]
      simp only [Prod.mk.injEq, Except.ok.injEq]
      refine ⟨by omega, ?_, by omega, by omega⟩
      rw [List.range'_succ]
      simp

/-! Claim C6: the non-blocking `write`. -/

/-- Claim C6: `write` checks the TXFF flag before each byte; with `k` the
number of leading checks that see a non-full FIFO (capped at the input
length), it returns WouldBlock when it accepted nothing on a non-empty
input, and otherwise the count `k` of bytes accepted - the whole input
length when the FIFO never reported full - having pushed exactly the first
`k` bytes to the data register in input order. -/
theorem write_fifo_behavior (txff : Nat → Bool) (data : List Nat) (k : Nat)
    (hk : k ≤ data.length)
    (hclear : ∀ i, i < k → txff i = false)
    (hstop : k < data.length → txff k = true) :
    (write txff 0 data).1 =
      (if data.length ≠ 0 ∧ k = 0 then Except.error NbError.wouldBlock
       else Except.ok k)
    ∧ (write txff 0 data).2.1 = data.take k := by
  have h := writeGo_eq txff data 0 0 k hk
    (by intro i hi; simpa using hclear i hi)
    (by intro hlt; simpa using hstop hlt)
  rw [write, h]
  constructor
  · simp
  · rfl

/-- Claim C6, witness: a FIFO that accepts exactly 3 of 5 bytes before
reporting full yields a partial write of 3 bytes, not an error. -/
theorem write_fifo_behavior_witness :
    (write (fun i => decide (3 ≤ i)) 0 [10, 20, 30, 40, 50]).1 =
      (if ([10, 20, 30, 40, 50] : List Nat).length ≠ 0 ∧ 3 = 0
         then Except.error NbError.wouldBlock
         else Except.ok 3)
    ∧ (write (fun i => decide (3 ≤ i)) 0 [10, 20, 30, 40, 50]).2.1 =
      ([10, 20, 30, 40, 50] : List Nat).take 3 :=
  write_fifo_behavior (fun i => decide (3 ≤ i)) [10, 20, 30, 40, 50] 3
    (by decide) (by decide) (by decide)

/-! Claim C7: the non-blocking `read`. -/

/-- Claim C7: `read` is symmetric to `write`, driven by the RXFE flag: with
`k` the number of leading checks that see a non-empty FIFO (capped at the
buffer length), it returns WouldBlock when it filled nothing and the FIFO
reported empty, and otherwise the count `k` - the full buffer length when
the buffer fills before the FIFO empties - each filled byte coming from the
data register in order. -/
theorem read_fifo_behavior (rxfe : Nat → Bool) (rx : Nat → Nat) (len k : Nat)
    (hk : k ≤ len)
    (hclear : ∀ i, i < k → rxfe i = false)
    (hstop : k < len → rxfe k = true) :
    (read rxfe rx len 0 0).1 =
      (if k = 0 ∧ (0 < len ∨ rxfe k = true)
         then Except.error NbError.wouldBlock
         else Except.ok k)
    ∧ (read rxfe rx len 0 0).2.1 = (List.range k).map rx := by
  have h := readGo_eq rxfe rx len 0 0 0 k hk
    (by intro i hi; simpa using hclear i hi)
    (by intro hlt; simpa using hstop hlt)
  rw [read, h]
  constructor
  · by_cases hk0 : k = 0
    · subst hk0
      simp
    · simp [hk0]
  · rw [List.range_eq_range']

/-- Claim C7, witness: a buffer of 5 filled with exactly 3 bytes before the
FIFO empties yields a partial read of 3 bytes, not an error. -/
theorem read_fifo_behavior_witness :
    (read (fun i => decide (3 ≤ i)) (fun i => 100 + i) 5 0 0).1 =
      (if 3 = 0 ∧ (0 < 5 ∨ (fun i => decide (3 ≤ i)) 3 = true)
         then Except.error NbError.wouldBlock
         else Except.ok 3)
    ∧ (read (fun i => decide (3 ≤ i)) (fun i => 100 + i) 5 0 0).2.1 =
      (List.range 3).map (fun i => 100 + i) :=
  read_fifo_behavior (fun i => decide (3 ≤ i)) (fun i => 100 + i) 5 3
    (by decide) (by decide) (by decide)

/-! Claim C10: zero-length transfers at the public interface. -/

/-- Claim C10: `write` on an empty input returns Ok 0 for every FIFO state
without performing a flag read (the cursor is unchanged and the result does
not depend on the flag sequence), while `read` into a zero-length buffer
performs one flag read first and returns WouldBlock when the FIFO is empty
and Ok 0, consuming no data byte, when it is not. -/
theorem zero_length_transfer_asymmetry :
    (∀ (txff : Nat → Bool) (c : Nat),
      write txff c [] = (Except.ok 0, [], c))
    ∧ (∀ (rxfe : Nat → Bool) (rx : Nat → Nat) (c d : Nat),
      read rxfe rx 0 c d =
        if rxfe c = true
          then (Except.error NbError.wouldBlock, [], c + 1, d)
          else (Except.ok 0, [], c + 1, d)) := by
  constructor
  · intro txff c
    rfl
  · intro rxfe rx c d
    cases hc : rxfe c <;> simp [read, readGo, uart_is_readable, hc]

/-! Helper lemmas for the blocking wrappers: progress and termination. -/

/-- Number of consecutive leading status checks, starting at cursor `c` and
capped at `len`, for which the flag sequence is clear. -/
def countClear (flag : Nat → Bool) (c : Nat) : Nat → Nat
  | 0 => 0
  | len + 1 => if flag c then 0 else countClear flag (c + 1) len + 1

lemma countClear_succ_of_clear (flag : Nat → Bool) (c len : Nat)
    (h : flag c = false) :
    countClear flag c (len + 1) = countClear flag (c + 1) len + 1 := by
  simp [countClear, h]

lemma countClear_eq_zero_of_set (flag : Nat → Bool) (c len : Nat)
    (h : flag c = true) :
    countClear flag c (len + 1) = 0 := by
  simp [countClear, h]

lemma countClear_le (flag : Nat → Bool) :
    ∀ (len c : Nat), countClear flag c len ≤ len := by
  intro len
  induction len with
  | zero =>
    intro c
    simp [countClear]
  | succ l ih =>
    intro c
    by_cases h : flag c <;> simp [countClear, h]
    exact ih (c + 1)

lemma countClear_clear (flag : Nat → Bool) :
    ∀ (len c i : Nat), i < countClear flag c len → flag (c + i) = false := by
  intro len
  induction len with
  | zero =>
    intro c i hi
    simp [countClear] at hi
  | succ l ih =>
    intro c i hi
    cases hf : flag c
    · match i with
      | 0 => simpa using hf
      | i' + 1 =>
        rw [countClear_succ_of_clear flag c l hf] at hi
        have := ih (c + 1) i' (by omega)
        rwa [show c + 1 + i' = c + (i' + 1) by omega] at this
    · rw [countClear_eq_zero_of_set flag c l hf] at hi
      omega

lemma countClear_stop (flag : Nat → Bool) :
    ∀ (len c : Nat), countClear flag c len < len →
      flag (c + countClear flag c len) = true := by
  intro len
  induction len with
  | zero =>
    intro c h
    omega
  | succ l ih =>
    intro c h
    cases hf : flag c
    · rw [countClear_succ_of_clear flag c l hf] at h ⊢
      have := ih (c + 1) (by omega)
      rwa [show c + 1 + countClear flag (c + 1) l =
        c + (countClear flag (c + 1) l + 1) by omega] at this
    · rw [countClear_eq_zero_of_set flag c l hf]
      simpa using hf

/-- Closed form of `write` in terms of `countClear`. -/
lemma write_eq_countClear (txff : Nat → Bool) (c : Nat) (data : List Nat) :
    write txff c data =
      (if data.length ≠ 0 ∧ countClear txff c data.length = 0
         then Except.error NbError.wouldBlock
         else Except.ok (countClear txff c data.length),
       data.take (countClear txff c data.length),
       c + countClear txff c data.length +
         if countClear txff c data.length < data.length then 1 else 0) := by
  have h := writeGo_eq txff data c 0 (countClear txff c data.length)
    (countClear_le txff data.length c)
    (fun i hi => countClear_clear txff data.length c i hi)
    (fun hlt => countClear_stop txff data.length c hlt)
  rw [write, h]
  simp

/-- Closed form of `read` in terms of `countClear`. -/
lemma read_eq_countClear (rxfe : Nat → Bool) (rx : Nat → Nat) (len c d : Nat) :
    read rxfe rx len c d =
      (if countClear rxfe c len = 0 ∧
            (countClear rxfe c len < len ∨ rxfe (c + countClear rxfe c len) = true)
         then Except.error NbError.wouldBlock
         else Except.ok (countClear rxfe c len),
       (List.range' d (countClear rxfe c len)).map rx,
       c + countClear rxfe c len + 1, d + countClear rxfe c len) := by
  have h := readGo_eq rxfe rx len c d 0 (countClear rxfe c len)
    (countClear_le rxfe len c)
    (fun i hi => countClear_clear rxfe len c i hi)
    (fun hlt => countClear_stop rxfe len c hlt)
  rw [read, h]
  simp

/-- Termination of `write_full_blocking`: if the TXFF flag sequence is clear
infinitely often, then for some fuel the wrapper completes, having pushed
exactly the input to UARTDR in order. -/
lemma wfb_complete (txff : Nat → Bool)
    (H : ∀ n, ∃ m, n ≤ m ∧ txff m = false) :
    ∀ (bound : Nat) (data : List Nat), data.length ≤ bound → ∀ c,
      ∃ fuel cEnd, write_full_blocking txff fuel c data = some (data, cEnd) := by
  intro bound
  induction bound with
  | zero =>
    intro data hlen c
    have hnil : data = [] := List.eq_nil_of_length_eq_zero (Nat.le_zero.mp hlen)
    subst hnil
    exact ⟨0, c, rfl⟩
  | succ B ih =>
    intro data hlen c
    match data with
    | [] => exact ⟨0, c, rfl⟩
    | byte :: rest =>
      have step : ∀ c', txff c' = false →
          ∃ fuel cEnd,
            write_full_blocking txff fuel c' (byte :: rest) =
              some (byte :: rest, cEnd) := by
        intro c' hc'
        have hkpos : 0 < countClear txff c' (byte :: rest).length := by
          simp [countClear, hc']
        have hw := write_eq_countClear txff c' (byte :: rest)
        rw [if_neg (show ¬((byte :: rest).length ≠ 0 ∧
            countClear txff c' (byte :: rest).length = 0) by
          rintro ⟨-, h⟩; omega)] at hw
        have hlen' : ((byte :: rest).drop
            (countClear txff c' (byte :: rest).length)).length ≤ B := by
          rw [List.length_drop]
          omega
        obtain ⟨fuel', cEnd, hrec⟩ := ih
          ((byte :: rest).drop (countClear txff c' (byte :: rest).length)) hlen'
          (c' + countClear txff c' (byte :: rest).length +
            if countClear txff c' (byte :: rest).length < (byte :: rest).length
              then 1 else 0)
        refine ⟨fuel' + 1, cEnd, ?_⟩
        simp only [write_full_blocking]
        rw [hw]
        dsimp only
        rw [hrec]
        dsimp only
        rw [List.take_append_drop]
      obtain ⟨m, hcm, hm⟩ := H c
      have spin : ∀ j c0, txff (c0 + j) = false →
          ∃ fuel cEnd,
            write_full_blocking txff fuel c0 (byte :: rest) =
              some (byte :: rest, cEnd) := by
        intro j
        induction j with
        | zero =>
          intro c0 h0
          exact step c0 (by simpa using h0)
        | succ j ihj =>
          intro c0 h0
          by_cases hc0 : txff c0 = false
          · exact step c0 hc0
          · have hc0' : txff c0 = true := by
              cases h : txff c0
              · exact absurd h hc0
              · rfl
            have hk0 : countClear txff c0 (byte :: rest).length = 0 := by
              simp [countClear, hc0']
            have hw := write_eq_countClear txff c0 (byte :: rest)
            rw [hk0] at hw
            simp only [List.length_cons] at hw
            rw [if_pos (by simp)] at hw
            simp only [List.take_zero, Nat.add_zero] at hw
            rw [if_pos (by omega)] at hw
            obtain ⟨fuel, cEnd, hrec⟩ := ihj (c0 + 1)
              (by rwa [show c0 + 1 + j = c0 + (j + 1) by omega])
            refine ⟨fuel + 1, cEnd, ?_⟩
            simp only [write_full_blocking]
            rw [hw]
            dsimp only
            exact hrec
      exact spin (m - c) c (by rwa [show c + (m - c) = m by omega])

/-- Termination of `read_full_blocking`: if the RXFE flag sequence is clear
infinitely often, then for some fuel the wrapper completes, filling the
buffer with exactly the next `len` bytes of the data register in order. -/
lemma rfb_complete (rxfe : Nat → Bool) (rx : Nat → Nat)
    (H : ∀ n, ∃ m, n ≤ m ∧ rxfe m = false) :
    ∀ (bound len : Nat), len ≤ bound → ∀ c d,
      ∃ fuel cEnd dEnd,
        read_full_blocking rxfe rx fuel c d len =
          some ((List.range' d len).map rx, cEnd, dEnd) := by
  intro bound
  induction bound with
  | zero =>
    intro len hlen c d
    have h0 : len = 0 := Nat.le_zero.mp hlen
    subst h0
    exact ⟨0, c, d, rfl⟩
  | succ B ih =>
    intro len hlen c d
    match len with
    | 0 => exact ⟨0, c, d, rfl⟩
    | L + 1 =>
      have step : ∀ c', rxfe c' = false → ∀ d',
          ∃ fuel cEnd dEnd,
            read_full_blocking rxfe rx fuel c' d' (L + 1) =
              some ((List.range' d' (L + 1)).map rx, cEnd, dEnd) := by
        intro c' hc' d'
        have hkpos : 0 < countClear rxfe c' (L + 1) := by
          simp [countClear, hc']
        have hkle := countClear_le rxfe (L + 1) c'
        have hr := read_eq_countClear rxfe rx (L + 1) c' d'
        rw [if_neg (show ¬(countClear rxfe c' (L + 1) = 0 ∧
            (countClear rxfe c' (L + 1) < L + 1 ∨
              rxfe (c' + countClear rxfe c' (L + 1)) = true)) by
          rintro ⟨h, -⟩; omega)] at hr
        obtain ⟨fuel', cEnd, dEnd, hrec⟩ := ih (L + 1 - countClear rxfe c' (L + 1))
          (by omega) (c' + countClear rxfe c' (L + 1) + 1)
          (d' + countClear rxfe c' (L + 1))
        refine ⟨fuel' + 1, cEnd, dEnd, ?_⟩
        simp only [read_full_blocking]
        rw [hr]
        dsimp only
        rw [hrec]
        dsimp only
        rw [← List.map_append, List.range'_append_1,
          show L + 1 - countClear rxfe c' (L + 1) + countClear rxfe c' (L + 1) =
            L + 1 by omega]
      obtain ⟨m, hcm, hm⟩ := H c
      have spin : ∀ j c0, rxfe (c0 + j) = false →
          ∃ fuel cEnd dEnd,
            read_full_blocking rxfe rx fuel c0 d (L + 1) =
              some ((List.range' d (L + 1)).map rx, cEnd, dEnd) := by
        intro j
        induction j with
        | zero =>
          intro c0 h0
          exact step c0 (by simpa using h0) d
        | succ j ihj =>
          intro c0 h0
          by_cases hc0 : rxfe c0 = false
          · exact step c0 hc0 d
          · have hc0' : rxfe c0 = true := by
              cases h : rxfe c0
              · exact absurd h hc0
              · rfl
            have hk0 : countClear rxfe c0 (L + 1) = 0 := by
              simp [countClear, hc0']
            have hr := read_eq_countClear rxfe rx (L + 1) c0 d
            rw [hk0] at hr
            rw [if_pos (by omega)] at hr
            simp only [List.range'_zero, List.map_nil, Nat.add_zero] at hr
            obtain ⟨fuel, cEnd, dEnd, hrec⟩ := ihj (c0 + 1)
              (by rwa [show c0 + 1 + j = c0 + (j + 1) by omega])
            refine ⟨fuel + 1, cEnd, dEnd, ?_⟩
            simp only [read_full_blocking]
            rw [hr]
            dsimp only
            exact hrec
      exact spin (m - c) c (by rwa [show c + (m - c) = m by omega])

/-! Claim C8: the blocking wrappers. -/

/-- Claim C8: provided the FIFO status flag eventually permits progress on
each retry (the flag sequence is clear at infinitely many reads),
`write_full_blocking` terminates for some iteration bound having pushed
exactly its input to the data register in order, and `read_full_blocking`
terminates having filled the buffer with exactly the next `len` data-register
bytes in order; neither wrapper surfaces WouldBlock, whose absorption by
retry is built into the loop. -/
theorem blocking_wrappers_transfer_all
    (txff rxfe : Nat → Bool) (rx : Nat → Nat)
    (Hw : ∀ n, ∃ m, n ≤ m ∧ txff m = false)
    (Hr : ∀ n, ∃ m, n ≤ m ∧ rxfe m = false) :
    (∀ (data : List Nat) (c : Nat), ∃ fuel cEnd,
        write_full_blocking txff fuel c data = some (data, cEnd))
    ∧ (∀ (len c d : Nat), ∃ fuel cEnd dEnd,
        read_full_blocking rxfe rx fuel c d len =
          some ((List.range' d len).map rx, cEnd, dEnd)) := by
  constructor
  · intro data c
    exact wfb_complete txff Hw data.length data le_rfl c
  · intro len c d
    exact rfb_complete rxfe rx Hr len len le_rfl c d

/-- Claim C8, witness: with an always-clear flag sequence both wrappers
complete on a concrete transfer. -/
theorem blocking_wrappers_transfer_all_witness :
    (∃ fuel cEnd,
      write_full_blocking (fun _ => false) fuel 0 [1, 2, 3] =
        some ([1, 2, 3], cEnd))
    ∧ (∃ fuel cEnd dEnd,
      read_full_blocking (fun _ => false) (fun i => i) fuel 0 0 3 =
        some ((List.range' 0 3).map (fun i => i), cEnd, dEnd)) :=
  ⟨(blocking_wrappers_transfer_all (fun _ => false) (fun _ => false) (fun i => i)
      (fun n => ⟨n, Nat.le_refl n, rfl⟩)
      (fun n => ⟨n, Nat.le_refl n, rfl⟩)).1 [1, 2, 3] 0,
   (blocking_wrappers_transfer_all (fun _ => false) (fun _ => false) (fun i => i)
      (fun n => ⟨n, Nat.le_refl n, rfl⟩)
      (fun n => ⟨n, Nat.le_refl n, rfl⟩)).2 3 0 0⟩

end Uart
